import Mathlib

/-!
Verification of the rh-options repository: a shallow embedding of
`download_options_chain.py` (the resumable download pipeline) and
`analyze_options_chain.py` (the analytics over the persisted table),
with theorems settling the specification's claims about them.

Conventions of the embedding:
* Python dict values that may be absent are `Option _`; `dict.get(k, d)`
  is `Option.getD`.
* Python floats for prices/strikes/volumes are modelled as `ℚ`.
* A fallible call (`try`/`except`) is a function returning an explicit
  result variant instead of raising.
* `pandas.DataFrame` contents are lists of records; `sort_values` is
  `List.insertionSort` (a deterministic total sort; the claims proved here
  do not depend on the ordering of key-equal rows).
-/

/-- A Python scalar value as it lands in a record dict: either a string
(the API serialises prices and Greeks as strings, and the code defaults
absent ones to `''`) or a number (the code defaults absent `volume` and
`open_interest` to the integer `0`). -/
inductive FieldVal where
  | vStr (s : String)
  | vNum (n : ℤ)
deriving DecidableEq, Repr

/-- The market-data payload for one option as returned by
`get_option_market_data_by_id`: every field may be absent from the dict.
Mirrors the fields read at lines 111-125 of `download_options_chain.py`. -/
structure MdFields where
  bid_price : Option FieldVal
  ask_price : Option FieldVal
  mark_price : Option FieldVal
  last_trade_price : Option FieldVal
  volume : Option FieldVal
  open_interest : Option FieldVal
  implied_volatility : Option FieldVal
  delta : Option FieldVal
  gamma : Option FieldVal
  theta : Option FieldVal
  vega : Option FieldVal
  rho : Option FieldVal
  high_price : Option FieldVal
  low_price : Option FieldVal
  previous_close_price : Option FieldVal
deriving DecidableEq, Repr

/-- Outcome of the per-option market-data network call
(`rh.options.get_option_market_data_by_id(option['id'])`):
`ok f` — truthy list whose head is `f`; `noData` — falsy result
(`None` or `[]`); `err` — the call raised and the `except` branch skips
the option. -/
inductive MdResult where
  | ok (f : MdFields)
  | noData
  | err
deriving DecidableEq, Repr

/-- One element of the list returned by `find_options_by_expiration`.
`strike_val = none` models `float(option['strike_price'])` raising (or a
missing key) — an exception thrown before the network call, which the
`except` branch turns into `continue`. -/
structure RawOption where
  id : String
  strike_val : Option ℚ
  opt_type : String
deriving DecidableEq, Repr

/-- The record dict assembled at lines 106-126 of
`download_options_chain.py`. -/
structure OptionRecord where
  symbol : String
  expiration_date : String
  strike_price : ℚ
  option_type : String
  bid_price : FieldVal
  ask_price : FieldVal
  mark_price : FieldVal
  last_trade_price : FieldVal
  volume : FieldVal
  open_interest : FieldVal
  implied_volatility : FieldVal
  delta : FieldVal
  gamma : FieldVal
  theta : FieldVal
  vega : FieldVal
  rho : FieldVal
  high_price : FieldVal
  low_price : FieldVal
  previous_close : FieldVal
deriving DecidableEq, Repr

/-- Python's `d.get(key, default)`. -/
def pyGet (v : Option FieldVal) (d : FieldVal) : FieldVal :=
  v.getD d

/-- The record construction of lines 106-126: price/Greek fields default
to the empty string, `volume` and `open_interest` default to the integer
`0`. -/
def buildRecord (symbol exp_date : String) (strike : ℚ) (otype : String)
    (f : MdFields) : OptionRecord where
  symbol := symbol
  expiration_date := exp_date
  strike_price := strike
  option_type := otype
  bid_price := pyGet f.bid_price (.vStr "")
  ask_price := pyGet f.ask_price (.vStr "")
  mark_price := pyGet f.mark_price (.vStr "")
  last_trade_price := pyGet f.last_trade_price (.vStr "")
  volume := pyGet f.volume (.vNum 0)
  open_interest := pyGet f.open_interest (.vNum 0)
  implied_volatility := pyGet f.implied_volatility (.vStr "")
  delta := pyGet f.delta (.vStr "")
  gamma := pyGet f.gamma (.vStr "")
  theta := pyGet f.theta (.vStr "")
  vega := pyGet f.vega (.vStr "")
  rho := pyGet f.rho (.vStr "")
  high_price := pyGet f.high_price (.vStr "")
  low_price := pyGet f.low_price (.vStr "")
  previous_close := pyGet f.previous_close_price (.vStr "")

/-- One iteration of the `for option in options` loop of
`fetch_options_for_expiration` (lines 97-130).  The accumulator carries
the records built so far and the number of market-data network calls
issued so far.  A strike that fails to parse raises before the network
call, so that option costs no call; otherwise exactly one call is issued
and the record is kept only when the call returns truthy data. -/
def fetchStep (symbol exp_date : String) (md : String → MdResult)
    (acc : List OptionRecord × ℕ) (o : RawOption) : List OptionRecord × ℕ :=
  match o.strike_val with
  | none => acc
  | some strike =>
    match md o.id with
    | .ok f => (acc.1 ++ [buildRecord symbol exp_date strike o.opt_type f], acc.2 + 1)
    | .noData => (acc.1, acc.2 + 1)
    | .err => (acc.1, acc.2 + 1)

/-- `fetch_options_for_expiration` (lines 71-137), abstracted over the
instrument list `options` (result of `find_options_by_expiration`) and the
market-data endpoint `md`.  Returns the assembled records together with
the number of market-data network calls issued. -/
def fetch_options_for_expiration (symbol exp_date : String)
    (md : String → MdResult) (options : List RawOption) :
    List OptionRecord × ℕ :=
  if options = [] then ([], 0)
  else options.foldl (fetchStep symbol exp_date md) ([], 0)

/-- A market-data payload with every field absent. -/
def mdAllAbsent : MdFields where
  bid_price := none
  ask_price := none
  mark_price := none
  last_trade_price := none
  volume := none
  open_interest := none
  implied_volatility := none
  delta := none
  gamma := none
  theta := none
  vega := none
  rho := none
  high_price := none
  low_price := none
  previous_close_price := none

/-- Whether a market-data call result is a truthy success. -/
def MdResult.isOk : MdResult → Bool
  | .ok _ => true
  | .noData => false
  | .err => false

/-- One row of the output CSV table, restricted to the key columns
`(expiration_date, option_type, strike_price)` that the resume logic and
the sort order read.  The remaining columns ride along unchanged and are
irrelevant to the writer's behaviour. -/
structure DlRow where
  expiration_date : String
  option_type : String
  strike_price : ℚ
deriving DecidableEq, Repr

/-- `get_completed_expirations` (lines 47-69): the set of distinct
`expiration_date` values of an existing CSV file; empty when the file
does not exist.  Modelled as a duplicate-free list. -/
def get_completed_expirations (file : Option (List DlRow)) : List String :=
  match file with
  | none => []
  | some rows => (rows.map (·.expiration_date)).dedup

/-- Lexicographic comparison on `(option_type, strike_price)` — the key
of the per-expiration `df.sort_values(['option_type', 'strike_price'])`
at line 216. -/
def dlKeyLe (a b : DlRow) : Prop :=
  a.option_type < b.option_type ∨
    (a.option_type = b.option_type ∧ a.strike_price ≤ b.strike_price)

instance : DecidableRel dlKeyLe := fun a b => by
  unfold dlKeyLe
  infer_instance

instance : IsTotal DlRow dlKeyLe := by
  constructor
  intro a b
  rcases lt_trichotomy a.option_type b.option_type with h | h | h
  · exact Or.inl (Or.inl h)
  · rcases le_total a.strike_price b.strike_price with h2 | h2
    · exact Or.inl (Or.inr ⟨h, h2⟩)
    · exact Or.inr (Or.inr ⟨h.symm, h2⟩)
  · exact Or.inr (Or.inl h)

instance : IsTrans DlRow dlKeyLe := by
  constructor
  intro a b c hab hbc
  rcases hab with h1 | ⟨h1, h1q⟩ <;> rcases hbc with h2 | ⟨h2, h2q⟩
  · exact Or.inl (h1.trans h2)
  · exact Or.inl (h2 ▸ h1)
  · exact Or.inl (h1 ▸ h2)
  · exact Or.inr ⟨h1.trans h2, h1q.trans h2q⟩

/-- Lexicographic comparison on the full logical key
`(expiration_date, option_type, strike_price)`. -/
def fullKeyLe (a b : DlRow) : Prop :=
  a.expiration_date < b.expiration_date ∨
    (a.expiration_date = b.expiration_date ∧ dlKeyLe a b)

instance : DecidableRel fullKeyLe := fun a b => by
  unfold fullKeyLe
  infer_instance

/-- The per-expiration sort applied before each CSV append (line 216). -/
def commitSort (recs : List DlRow) : List DlRow :=
  List.insertionSort dlKeyLe recs

/-- Running state of the download loop of `download_full_chain`: the
output file contents (`none` = the file does not exist yet), the
`is_first_write` flag, and the `fetched` / `skipped` / `total_options`
session counters. -/
structure DLoop where
  file : Option (List DlRow)
  is_first_write : Bool
  fetched : ℕ
  skipped : ℕ
  total : ℕ
deriving DecidableEq, Repr

/-- One iteration of the `for i, exp_date in enumerate(expiration_dates)`
loop (lines 200-236).  A completed expiration is skipped; a successful
non-empty fetch is sorted and written (mode `'w'` truncates on the first
write, mode `'a'` appends); a successful empty fetch and a failed fetch
both leave the file and the `fetched` counter untouched. -/
def dlStep (completed : List String) (fetch : String → Option (List DlRow))
    (st : DLoop) (e : String) : DLoop :=
  if e ∈ completed then
    { st with skipped := st.skipped + 1 }
  else
    match fetch e with
    | some recs =>
      if 0 < recs.length then
        { file := some ((if st.is_first_write then [] else st.file.getD []) ++ commitSort recs),
          is_first_write := false,
          fetched := st.fetched + 1,
          skipped := st.skipped,
          total := st.total + recs.length }
      else st
    | none => st

/-- The observable outcome of `download_full_chain`: whether a path was
returned (success) and the final contents of the output target. -/
structure DlResult where
  ok : Bool
  file : Option (List DlRow)
  fetched : ℕ
  skipped : ℕ
  total : ℕ
deriving DecidableEq, Repr

/-- Packaging of the loop state into the function's result: the run
succeeds exactly when the output file exists at the end (lines 241-262). -/
def dlFinish (st : DLoop) : DlResult :=
  ⟨st.file.isSome, st.file, st.fetched, st.skipped, st.total⟩

/-- `download_full_chain` (lines 139-262), abstracted over the expiration
list (result of `get_expiration_dates`), the per-expiration fetch
(`fetch_options_for_expiration`, where `none` models a failed fetch), the
`--continue` flag and the pre-existing output file contents.
Branch structure mirrors lines 160-190: no expirations is a failure; in
resume mode an existing file seeds the completed set and turns off
`is_first_write` when that set is non-empty; an existing file without
resume mode aborts before any write. -/
def download_full_chain (expirations : List String)
    (fetch : String → Option (List DlRow)) (continueMode : Bool)
    (file0 : Option (List DlRow)) : DlResult :=
  if expirations = [] then ⟨false, file0, 0, 0, 0⟩
  else if continueMode ∧ file0.isSome then
    dlFinish (expirations.foldl (dlStep (get_completed_expirations file0) fetch)
      ⟨file0, (get_completed_expirations file0).isEmpty, 0, 0, 0⟩)
  else if file0.isSome then
    ⟨false, file0, 0, 0, 0⟩
  else
    dlFinish (expirations.foldl (dlStep [] fetch) ⟨file0, true, 0, 0, 0⟩)

/-- One row of the CSV as read by `analyze_options_chain.py`, restricted
to the columns the analytics functions use (`expiration_date`,
`strike_price`, `option_type`, `volume`, `open_interest` — the required
columns validated at line 237). -/
structure ARow where
  expiration_date : String
  option_type : String
  strike_price : ℚ
  volume : ℚ
  open_interest : ℚ
deriving DecidableEq, Repr

/-- `df[df['expiration_date'] == exp_date]`. -/
def expRows (rows : List ARow) (e : String) : List ARow :=
  rows.filter (fun r => decide (r.expiration_date = e))

/-- `exp_data[exp_data['option_type'] == 'call']`. -/
def callsOf (ed : List ARow) : List ARow :=
  ed.filter (fun r => decide (r.option_type = "call"))

/-- `exp_data[exp_data['option_type'] == 'put']`. -/
def putsOf (ed : List ARow) : List ARow :=
  ed.filter (fun r => decide (r.option_type = "put"))

/-- `sorted(df['expiration_date'].unique())` (lines 30 and 196). -/
def expsSorted (rows : List ARow) : List String :=
  List.insertionSort (· ≤ ·) ((rows.map (·.expiration_date)).dedup)

/-- Python `int(x)` on a rational: truncation toward zero. -/
def truncQ (q : ℚ) : ℤ :=
  if 0 ≤ q then ⌊q⌋ else ⌈q⌉

/-- Python 3 `round(x)` to the nearest integer, halves to even. -/
def roundHalfEven (q : ℚ) : ℤ :=
  let f := ⌊q⌋
  let r := q - f
  if r < 1/2 then f
  else if 1/2 < r then f + 1
  else if f % 2 = 0 then f else f + 1

/-- Python `round(x, 2)`. -/
def round2 (q : ℚ) : ℚ :=
  (roundHalfEven (q * 100) : ℚ) / 100

/-- Sum of call volumes at expiration `e` (line 37). -/
def callVolSum (rows : List ARow) (e : String) : ℚ :=
  ((callsOf (expRows rows e)).map (·.volume)).sum

/-- Sum of put volumes at expiration `e` (line 38). -/
def putVolSum (rows : List ARow) (e : String) : ℚ :=
  ((putsOf (expRows rows e)).map (·.volume)).sum

/-- Sum of call open interest at expiration `e` (line 42). -/
def callOiSum (rows : List ARow) (e : String) : ℚ :=
  ((callsOf (expRows rows e)).map (·.open_interest)).sum

/-- Sum of put open interest at expiration `e` (line 43). -/
def putOiSum (rows : List ARow) (e : String) : ℚ :=
  ((putsOf (expRows rows e)).map (·.open_interest)).sum

/-- One output row of `calculate_put_call_ratios` (lines 46-54). -/
structure RatioRow where
  expiration_date : String
  call_volume : ℤ
  put_volume : ℤ
  put_call_volume_ratio : ℚ
  call_oi : ℤ
  put_oi : ℤ
  put_call_oi_ratio : ℚ
deriving DecidableEq, Repr

/-- The loop body of `calculate_put_call_ratios` for one expiration
(lines 31-54): ratios are `put / call` with a zero guard on the call sum,
rounded to two decimals. -/
def mkRatioRow (rows : List ARow) (e : String) : RatioRow where
  expiration_date := e
  call_volume := truncQ (callVolSum rows e)
  put_volume := truncQ (putVolSum rows e)
  put_call_volume_ratio :=
    round2 (if 0 < callVolSum rows e then putVolSum rows e / callVolSum rows e else 0)
  call_oi := truncQ (callOiSum rows e)
  put_oi := truncQ (putOiSum rows e)
  put_call_oi_ratio :=
    round2 (if 0 < callOiSum rows e then putOiSum rows e / callOiSum rows e else 0)

/-- `calculate_put_call_ratios` (lines 21-56). -/
def calculate_put_call_ratios (rows : List ARow) : List RatioRow :=
  (expsSorted rows).map (mkRatioRow rows)

/-- The inner `total_value` accumulation of `calculate_max_pain` for a
candidate settlement price `s` (lines 82-98): intrinsic value of
in-the-money calls and puts weighted by open interest and the
100-share multiplier. -/
def painAt (ed : List ARow) (s : ℚ) : ℚ :=
  ((callsOf ed).map
      (fun c => if c.strike_price < s then (s - c.strike_price) * c.open_interest * 100 else 0)).sum
  + ((putsOf ed).map
      (fun p => if s < p.strike_price then (p.strike_price - s) * p.open_interest * 100 else 0)).sum

/-- The claim's formula for the same quantity, written with `max 0 _`
exactly as the specification states it. -/
def painSpec (ed : List ARow) (s : ℚ) : ℚ :=
  ((callsOf ed).map
      (fun c => max 0 (s - c.strike_price) * c.open_interest * 100)).sum
  + ((putsOf ed).map
      (fun p => max 0 (p.strike_price - s) * p.open_interest * 100)).sum

/-- `sorted(exp_data['strike_price'].unique())` (line 76). -/
def strikesOf (ed : List ARow) : List ℚ :=
  List.insertionSort (· ≤ ·) ((ed.map (·.strike_price)).dedup)

/-- The running-minimum update of lines 100-103, carrying
`(min_total_value, max_pain_strike)`; `none` is the initial
`(inf, None)` state, which the first candidate always beats. -/
def mpStep (ed : List ARow) (acc : Option (ℚ × ℚ)) (s : ℚ) : Option (ℚ × ℚ) :=
  match acc with
  | none => some (painAt ed s, s)
  | some vm => if painAt ed s < vm.1 then some (painAt ed s, s) else some vm

/-- `calculate_max_pain` (lines 58-105): `none` when the expiration has
no rows, otherwise the strike tracked by the running minimum over the
ascending candidate strikes. -/
def calculate_max_pain (rows : List ARow) (e : String) : Option ℚ :=
  if expRows rows e = [] then none
  else ((strikesOf (expRows rows e)).foldl (mpStep (expRows rows e)) none).map (·.2)

/-- The active subset of `detect_unusual_activity`:
`df[df['volume'] > 0]` (line 124). -/
def activeOf (rows : List ARow) : List ARow :=
  rows.filter (fun r => decide (0 < r.volume))

/-- The per-row `volume_oi_ratio` of lines 130-133. -/
def volOiRatio (r : ARow) : ℚ :=
  if 0 < r.open_interest then r.volume / r.open_interest else 0

/-- `active_options['volume'].mean()` (line 136). -/
def volMean (rows : List ARow) : ℚ :=
  ((activeOf rows).map (·.volume)).sum / ((activeOf rows).length : ℚ)

/-- The sample variance (`ddof=1`) underlying
`active_options['volume'].std()` at line 137. -/
def volVar (rows : List ARow) : ℚ :=
  ((activeOf rows).map (fun r => (r.volume - volMean rows) ^ 2)).sum
    / (((activeOf rows).length : ℚ) - 1)

/-- The high-volume test `volume >= volume_mean + 2 * volume_std` of
lines 138-142, stated in `ℚ` by squaring away the square root:
for `var ≥ 0`, `v ≥ m + 2·√var  ↔  v - m ≥ 0 ∧ (v - m)² ≥ 4·var`
(the equivalence with the real-valued inequality is proved in
`volFlag_iff_real`).  With fewer than two active rows pandas' sample
`std()` is `NaN` and the `>=` comparison is `False`, hence the guard. -/
def volFlag (rows : List ARow) (r : ARow) : Bool :=
  if (activeOf rows).length ≤ 1 then false
  else decide (0 ≤ r.volume - volMean rows ∧
    4 * volVar rows ≤ (r.volume - volMean rows) ^ 2)

/-- The flagged subset of line 141-144: high volume or
`volume_oi_ratio >= 0.5`. -/
def flaggedOf (rows : List ARow) : List ARow :=
  (activeOf rows).filter (fun r => volFlag rows r || decide (1/2 ≤ volOiRatio r))

/-- Descending-volume comparison of `sort_values('volume',
ascending=False)` at line 147. -/
def volDesc (a b : ARow) : Prop :=
  b.volume ≤ a.volume

instance : DecidableRel volDesc := fun a b => by
  unfold volDesc
  infer_instance

instance : IsTotal ARow volDesc := by
  constructor
  intro a b
  rcases le_total b.volume a.volume with h | h
  · exact Or.inl h
  · exact Or.inr h

instance : IsTrans ARow volDesc := by
  constructor
  intro a b c hab hbc
  exact hbc.trans hab

/-- `detect_unusual_activity` (lines 107-158): empty when no option has
positive volume, otherwise the flagged subset sorted by descending
volume and truncated to the top 50.  (The column selection and the
display rounding of `volume_oi_ratio` at lines 150-156 do not change
which contracts appear nor their order, so rows keep their original
fields here.) -/
def detect_unusual_activity (rows : List ARow) : List ARow :=
  if activeOf rows = [] then []
  else (List.insertionSort volDesc (flaggedOf rows)).take 50

/-- The max-pain block of `create_summary_sheet` (lines 195-205): one
`(expiration, strike)` entry per expiration whose `calculate_max_pain`
result is truthy — Python's `if max_pain:` drops both `None` and a
strike equal to `0`. -/
def max_pain_rows (rows : List ARow) : List (String × ℚ) :=
  (expsSorted rows).filterMap (fun e =>
    match calculate_max_pain rows e with
    | some s => if s = 0 then none else some (e, s)
    | none => none)

theorem mem_expsSorted (rows : List ARow) (e : String) :
    e ∈ expsSorted rows ↔ ∃ r ∈ rows, r.expiration_date = e := by
  unfold expsSorted
  rw [(List.perm_insertionSort _ _).mem_iff, List.mem_dedup, List.mem_map]

theorem expRows_eq_nil_iff (rows : List ARow) (e : String) :
    expRows rows e = [] ↔ ∀ r ∈ rows, r.expiration_date ≠ e := by
  unfold expRows
  rw [List.filter_eq_nil_iff]
  constructor
  · intro h r hr
    have := h r hr
    simpa using this
  · intro h r hr
    simpa using h r hr

/-- C4: with a pre-existing non-empty output target and resume mode off,
`download_full_chain` fails (returns no path) and leaves the target's
rows exactly as they were. -/
theorem write_conflict_guard (expirations : List String)
    (fetch : String → Option (List DlRow)) (rows : List DlRow)
    (hrows : rows ≠ []) :
    (download_full_chain expirations fetch false (some rows)).ok = false ∧
    (download_full_chain expirations fetch false (some rows)).file = some rows := by
  unfold download_full_chain
  by_cases he : expirations = [] <;> simp [he]

/-- Witness for `write_conflict_guard` on a concrete one-row target. -/
theorem write_conflict_guard_witness :
    ([⟨"2024-01-19", "call", 100⟩] : List DlRow) ≠ [] ∧
    ((download_full_chain ["2024-01-19", "2024-02-16"] (fun _ => none) false
        (some [⟨"2024-01-19", "call", 100⟩])).ok = false ∧
      (download_full_chain ["2024-01-19", "2024-02-16"] (fun _ => none) false
        (some [⟨"2024-01-19", "call", 100⟩])).file = some [⟨"2024-01-19", "call", 100⟩]) :=
  ⟨by decide, write_conflict_guard ["2024-01-19", "2024-02-16"] (fun _ => none)
    [⟨"2024-01-19", "call", 100⟩] (by decide)⟩

/-- C9 counterexample: a fresh run whose only expiration fetches
successfully but returns zero records.  Contrary to the claim, the
expiration is not committed: nothing is handed to the writer (no output
file is created), the `fetched` counter stays `0`, and the run fails, so
a later resume would retry the expiration. -/
theorem zero_record_fetch_cex :
    (download_full_chain ["2024-01-19"] (fun _ => some []) false none).fetched = 0 ∧
    (download_full_chain ["2024-01-19"] (fun _ => some []) false none).file = none ∧
    (download_full_chain ["2024-01-19"] (fun _ => some []) false none).ok = false := by
  decide

/-- C9 (amended): a fetch that succeeds with zero records leaves the
loop state completely unchanged — nothing is written, the expiration is
not counted as fetched, and it stays absent from the output (hence is
retried by a later resume). -/
theorem zero_record_fetch_skipped (completed : List String)
    (fetch : String → Option (List DlRow)) (st : DLoop) (e : String)
    (h1 : e ∉ completed) (h2 : fetch e = some []) :
    dlStep completed fetch st e = st := by
  simp [dlStep, h1, h2]

/-- Witness for `zero_record_fetch_skipped` at a concrete state. -/
theorem zero_record_fetch_skipped_witness :
    ("2024-01-19" ∉ ([] : List String)) ∧
    dlStep [] (fun _ => some []) ⟨none, true, 0, 0, 0⟩ "2024-01-19" = ⟨none, true, 0, 0, 0⟩ :=
  ⟨by decide, zero_record_fetch_skipped [] (fun _ => some []) ⟨none, true, 0, 0, 0⟩
    "2024-01-19" (by decide) rfl⟩

/-- C2 counterexample: when `volume` is absent from the market-data
payload the assembled record stores the number `0`, not an empty value —
so a stored `0` does not always mean an observed zero. -/
theorem absent_volume_stored_as_zero_cex :
    (buildRecord "NVDA" "2024-01-19" 100 "call" mdAllAbsent).volume = FieldVal.vNum 0 ∧
    (buildRecord "NVDA" "2024-01-19" 100 "call" mdAllAbsent).volume ≠ FieldVal.vStr "" :=
  ⟨rfl, by decide⟩

/-- C2 (amended): absent price, volatility and Greek fields are stored
as the empty string, but absent `volume` and `open_interest` are stored
as the number `0`; for those two fields a stored `0` can also mean
"missing". -/
theorem absent_field_defaults (symbol exp_date : String) (strike : ℚ)
    (otype : String) (f : MdFields) :
    (f.volume = none → (buildRecord symbol exp_date strike otype f).volume = FieldVal.vNum 0) ∧
    (f.open_interest = none → (buildRecord symbol exp_date strike otype f).open_interest = FieldVal.vNum 0) ∧
    (f.bid_price = none → (buildRecord symbol exp_date strike otype f).bid_price = FieldVal.vStr "") ∧
    (f.ask_price = none → (buildRecord symbol exp_date strike otype f).ask_price = FieldVal.vStr "") ∧
    (f.mark_price = none → (buildRecord symbol exp_date strike otype f).mark_price = FieldVal.vStr "") ∧
    (f.last_trade_price = none → (buildRecord symbol exp_date strike otype f).last_trade_price = FieldVal.vStr "") ∧
    (f.implied_volatility = none → (buildRecord symbol exp_date strike otype f).implied_volatility = FieldVal.vStr "") ∧
    (f.delta = none → (buildRecord symbol exp_date strike otype f).delta = FieldVal.vStr "") ∧
    (f.gamma = none → (buildRecord symbol exp_date strike otype f).gamma = FieldVal.vStr "") ∧
    (f.theta = none → (buildRecord symbol exp_date strike otype f).theta = FieldVal.vStr "") ∧
    (f.vega = none → (buildRecord symbol exp_date strike otype f).vega = FieldVal.vStr "") ∧
    (f.rho = none → (buildRecord symbol exp_date strike otype f).rho = FieldVal.vStr "") ∧
    (f.high_price = none → (buildRecord symbol exp_date strike otype f).high_price = FieldVal.vStr "") ∧
    (f.low_price = none → (buildRecord symbol exp_date strike otype f).low_price = FieldVal.vStr "") ∧
    (f.previous_close_price = none → (buildRecord symbol exp_date strike otype f).previous_close = FieldVal.vStr "") := by
  refine ⟨?_, ?_, ?_, ?_, ?_, ?_, ?_, ?_, ?_, ?_, ?_, ?_, ?_, ?_, ?_⟩ <;>
    (intro h; simp [buildRecord, pyGet, h])

/-- Witness for `absent_field_defaults` on the all-absent payload. -/
theorem absent_field_defaults_witness :
    (buildRecord "NVDA" "2024-01-19" 100 "call" mdAllAbsent).volume = FieldVal.vNum 0 ∧
    (buildRecord "NVDA" "2024-01-19" 100 "call" mdAllAbsent).open_interest = FieldVal.vNum 0 ∧
    (buildRecord "NVDA" "2024-01-19" 100 "call" mdAllAbsent).bid_price = FieldVal.vStr "" ∧
    (buildRecord "NVDA" "2024-01-19" 100 "call" mdAllAbsent).delta = FieldVal.vStr "" := by
  have h := absent_field_defaults "NVDA" "2024-01-19" 100 "call" mdAllAbsent
  exact ⟨h.1 rfl, h.2.1 rfl, h.2.2.1 rfl, h.2.2.2.2.2.2.2.1 rfl⟩

theorem fetchFold_count (symbol exp_date : String) (md : String → MdResult) :
    ∀ (opts : List RawOption) (acc : List OptionRecord × ℕ),
      (∀ o ∈ opts, o.strike_val ≠ none) →
      (opts.foldl (fetchStep symbol exp_date md) acc).2 = acc.2 + opts.length := by
  intro opts
  induction opts with
  | nil => intro acc _; simp
  | cons o opts ih =>
    intro acc h
    obtain ⟨st, hst⟩ : ∃ st, o.strike_val = some st := by
      cases hv : o.strike_val with
      | none => exact absurd hv (h o (by simp))
      | some st => exact ⟨st, rfl⟩
    rw [List.foldl_cons, ih _ (fun x hx => h x (by simp [hx]))]
    unfold fetchStep
    rw [hst]
    cases md o.id <;> simp <;> omega

theorem fetchFold_records (symbol exp_date : String) (md : String → MdResult) :
    ∀ (opts : List RawOption) (acc : List OptionRecord × ℕ),
      (opts.foldl (fetchStep symbol exp_date md) acc).1 = acc.1 ++
        opts.filterMap (fun o =>
          match o.strike_val, md o.id with
          | some st, .ok f => some (buildRecord symbol exp_date st o.opt_type f)
          | _, _ => none) := by
  intro opts
  induction opts with
  | nil => intro acc; simp
  | cons o opts ih =>
    intro acc
    rw [List.foldl_cons, List.filterMap_cons, ih]
    unfold fetchStep
    cases hv : o.strike_val with
    | none => simp
    | some st =>
      cases hm : md o.id <;> simp

theorem fetchFold_okCount (symbol exp_date : String) (md : String → MdResult) :
    ∀ (opts : List RawOption), (∀ o ∈ opts, o.strike_val ≠ none) →
      (opts.filterMap (fun o =>
          match o.strike_val, md o.id with
          | some st, .ok f => some (buildRecord symbol exp_date st o.opt_type f)
          | _, _ => none)).length
        = (opts.filter (fun o => (md o.id).isOk)).length := by
  intro opts
  induction opts with
  | nil => intro _; simp
  | cons o opts ih =>
    intro h
    obtain ⟨st, hst⟩ : ∃ st, o.strike_val = some st := by
      cases hv : o.strike_val with
      | none => exact absurd hv (h o (by simp))
      | some st => exact ⟨st, rfl⟩
    have ih2 := ih (fun x hx => h x (by simp [hx]))
    rw [List.filterMap_cons, List.filter_cons, hst]
    cases hm : md o.id <;> simp [MdResult.isOk, ih2]

/-- C3 counterexample: fetching market data for 130 instrument
references issues 130 network calls — one per reference — not the 3
batched calls the claim asserts. -/
theorem batch_chunking_cex :
    (fetch_options_for_expiration "NVDA" "2024-01-19" (fun _ => MdResult.noData)
        ((List.range 130).map (fun i => ⟨toString i, some 1, "call"⟩))).2 = 130 ∧
    (130 : ℕ) ≠ 3 :=
  ⟨rfl, by decide⟩

/-- C3 (amended): the market-data fetch is not batched — it issues
exactly one network call per instrument reference (whose strike parses),
and every reference whose call succeeds contributes exactly one
assembled record, one-to-one. -/
theorem fetch_one_call_per_ref (symbol exp_date : String)
    (md : String → MdResult) (opts : List RawOption)
    (hp : ∀ o ∈ opts, o.strike_val ≠ none) :
    (fetch_options_for_expiration symbol exp_date md opts).2 = opts.length ∧
    (fetch_options_for_expiration symbol exp_date md opts).1.length
      = (opts.filter (fun o => (md o.id).isOk)).length ∧
    ∀ o ∈ opts, ∀ f, md o.id = .ok f → ∀ st, o.strike_val = some st →
      buildRecord symbol exp_date st o.opt_type f
        ∈ (fetch_options_for_expiration symbol exp_date md opts).1 := by
  unfold fetch_options_for_expiration
  by_cases hnil : opts = []
  · subst hnil
    simp
  · rw [if_neg hnil]
    refine ⟨by simpa using fetchFold_count symbol exp_date md opts ([], 0) hp, ?_, ?_⟩
    · rw [fetchFold_records symbol exp_date md opts ([], 0)]
      simpa using fetchFold_okCount symbol exp_date md opts hp
    · intro o ho f hf st hst
      rw [fetchFold_records symbol exp_date md opts ([], 0)]
      simp only [List.nil_append]
      exact List.mem_filterMap.mpr ⟨o, ho, by rw [hst, hf]⟩

/-- Witness for `fetch_one_call_per_ref`: two references, one succeeding
and one failing — two calls, one record, and the succeeding reference's
record is present. -/
theorem fetch_one_call_per_ref_witness :
    (∀ o ∈ ([⟨".id1", some 100, "call"⟩, ⟨"id2", some 105, "put"⟩] : List RawOption),
      o.strike_val ≠ none) ∧
    (fetch_options_for_expiration "NVDA" "2024-01-19"
        (fun i => if i = ".id1" then MdResult.ok mdAllAbsent else MdResult.err)
        [⟨".id1", some 100, "call"⟩, ⟨"id2", some 105, "put"⟩]).2 = 2 ∧
    (fetch_options_for_expiration "NVDA" "2024-01-19"
        (fun i => if i = ".id1" then MdResult.ok mdAllAbsent else MdResult.err)
        [⟨".id1", some 100, "call"⟩, ⟨"id2", some 105, "put"⟩]).1.length = 1 := by
  have h := fetch_one_call_per_ref "NVDA" "2024-01-19"
    (fun i => if i = ".id1" then MdResult.ok mdAllAbsent else MdResult.err)
    [⟨".id1", some 100, "call"⟩, ⟨"id2", some 105, "put"⟩] (by decide)
  refine ⟨by decide, h.1, ?_⟩
  rw [h.2.1]
  decide

/-- C10: the summary's max-pain section holds the entry `(e, s)` exactly
when `calculate_max_pain` returns the truthy value `s` for `e` — an
expiration with no rows (result `None`) yields no entry, and so does a
genuinely computed max-pain strike of `0`. -/
theorem max_pain_rows_iff (rows : List ARow) (e : String) (s : ℚ) :
    (e, s) ∈ max_pain_rows rows ↔
      calculate_max_pain rows e = some s ∧ s ≠ 0 := by
  unfold max_pain_rows
  rw [List.mem_filterMap]
  constructor
  · rintro ⟨a, ha, heq⟩
    cases hm : calculate_max_pain rows a with
    | none => rw [hm] at heq; simp at heq
    | some t =>
      rw [hm] at heq
      by_cases ht : t = 0
      · simp [ht] at heq
      · simp only [if_neg ht] at heq
        obtain ⟨hae, hts⟩ : a = e ∧ t = s := by
          have := Option.some.inj heq
          exact ⟨congrArg Prod.fst this, congrArg Prod.snd this⟩
        subst hae
        subst hts
        exact ⟨hm, ht⟩
  · rintro ⟨hc, hs⟩
    have hne : expRows rows e ≠ [] := by
      intro hnil
      unfold calculate_max_pain at hc
      rw [if_pos hnil] at hc
      exact Option.noConfusion hc
    obtain ⟨r, hr⟩ := List.exists_mem_of_ne_nil _ hne
    have hre : r ∈ rows ∧ r.expiration_date = e := by
      have := List.mem_filter.mp hr
      exact ⟨this.1, by simpa using this.2⟩
    refine ⟨e, (mem_expsSorted rows e).mpr ⟨r, hre.1, hre.2⟩, ?_⟩
    rw [hc]
    simp [hs]

theorem round2_zero : round2 0 = 0 := by
  unfold round2 roundHalfEven
  norm_num

theorem mem_of_mem_callsOf_expRows (rows : List ARow) (e : String) (r : ARow)
    (h : r ∈ callsOf (expRows rows e)) : r ∈ rows :=
  (List.mem_filter.mp (List.mem_filter.mp h).1).1

theorem mem_of_mem_putsOf_expRows (rows : List ARow) (e : String) (r : ARow)
    (h : r ∈ putsOf (expRows rows e)) : r ∈ rows :=
  (List.mem_filter.mp (List.mem_filter.mp h).1).1

theorem sum_map_nonneg (l : List ARow) (f : ARow → ℚ) (h : ∀ r ∈ l, 0 ≤ f r) :
    0 ≤ (l.map f).sum := by
  apply List.sum_nonneg
  intro x hx
  obtain ⟨r, hr, hfx⟩ := List.mem_map.mp hx
  exact hfx ▸ h r hr

/-- C7: for every distinct expiration in the table, the emitted row's
volume ratio is `sum(put.volume) / sum(call.volume)` rounded to two
decimals, and exactly `0` when the call volume sum is `0`; analogously
for the open-interest ratio. -/
theorem put_call_ratio_correct (rows : List ARow) (e : String)
    (he : e ∈ rows.map (·.expiration_date))
    (hv : ∀ r ∈ rows, 0 ≤ r.volume) (ho : ∀ r ∈ rows, 0 ≤ r.open_interest) :
    ∃ row ∈ calculate_put_call_ratios rows,
      row.expiration_date = e ∧
      (callVolSum rows e = 0 → row.put_call_volume_ratio = 0) ∧
      (callVolSum rows e ≠ 0 →
        row.put_call_volume_ratio = round2 (putVolSum rows e / callVolSum rows e)) ∧
      (callOiSum rows e = 0 → row.put_call_oi_ratio = 0) ∧
      (callOiSum rows e ≠ 0 →
        row.put_call_oi_ratio = round2 (putOiSum rows e / callOiSum rows e)) := by
  obtain ⟨r, hr, hre⟩ := List.mem_map.mp he
  refine ⟨mkRatioRow rows e,
    List.mem_map_of_mem _ ((mem_expsSorted rows e).mpr ⟨r, hr, hre⟩), rfl, ?_, ?_, ?_, ?_⟩
  · intro h0
    show round2 (if 0 < callVolSum rows e then _ else 0) = 0
    rw [if_neg (by rw [h0]; exact lt_irrefl 0), round2_zero]
  · intro hne
    have hpos : 0 < callVolSum rows e :=
      lt_of_le_of_ne
        (sum_map_nonneg _ _ (fun x hx => hv x (mem_of_mem_callsOf_expRows rows e x hx)))
        (Ne.symm hne)
    show round2 (if 0 < callVolSum rows e then putVolSum rows e / callVolSum rows e else 0) = _
    rw [if_pos hpos]
  · intro h0
    show round2 (if 0 < callOiSum rows e then _ else 0) = 0
    rw [if_neg (by rw [h0]; exact lt_irrefl 0), round2_zero]
  · intro hne
    have hpos : 0 < callOiSum rows e :=
      lt_of_le_of_ne
        (sum_map_nonneg _ _ (fun x hx => ho x (mem_of_mem_callsOf_expRows rows e x hx)))
        (Ne.symm hne)
    show round2 (if 0 < callOiSum rows e then putOiSum rows e / callOiSum rows e else 0) = _
    rw [if_pos hpos]

/-- Witness for `put_call_ratio_correct`: an expiration with call
volumes `[10, 20]` and put volumes `[5, 5]`. -/
theorem put_call_ratio_correct_witness :
    ("2024-01-19" ∈ ([⟨"2024-01-19", "call", 100, 10, 1⟩, ⟨"2024-01-19", "call", 105, 20, 2⟩,
        ⟨"2024-01-19", "put", 100, 5, 3⟩, ⟨"2024-01-19", "put", 95, 5, 4⟩] : List ARow).map
        (·.expiration_date)) ∧
    ∃ row ∈ calculate_put_call_ratios
        [⟨"2024-01-19", "call", 100, 10, 1⟩, ⟨"2024-01-19", "call", 105, 20, 2⟩,
         ⟨"2024-01-19", "put", 100, 5, 3⟩, ⟨"2024-01-19", "put", 95, 5, 4⟩],
      row.expiration_date = "2024-01-19" ∧
      (callVolSum [⟨"2024-01-19", "call", 100, 10, 1⟩, ⟨"2024-01-19", "call", 105, 20, 2⟩,
          ⟨"2024-01-19", "put", 100, 5, 3⟩, ⟨"2024-01-19", "put", 95, 5, 4⟩] "2024-01-19" = 0 →
        row.put_call_volume_ratio = 0) ∧
      (callVolSum [⟨"2024-01-19", "call", 100, 10, 1⟩, ⟨"2024-01-19", "call", 105, 20, 2⟩,
          ⟨"2024-01-19", "put", 100, 5, 3⟩, ⟨"2024-01-19", "put", 95, 5, 4⟩] "2024-01-19" ≠ 0 →
        row.put_call_volume_ratio = round2
          (putVolSum [⟨"2024-01-19", "call", 100, 10, 1⟩, ⟨"2024-01-19", "call", 105, 20, 2⟩,
              ⟨"2024-01-19", "put", 100, 5, 3⟩, ⟨"2024-01-19", "put", 95, 5, 4⟩] "2024-01-19" /
            callVolSum [⟨"2024-01-19", "call", 100, 10, 1⟩, ⟨"2024-01-19", "call", 105, 20, 2⟩,
              ⟨"2024-01-19", "put", 100, 5, 3⟩, ⟨"2024-01-19", "put", 95, 5, 4⟩] "2024-01-19")) ∧
      (callOiSum [⟨"2024-01-19", "call", 100, 10, 1⟩, ⟨"2024-01-19", "call", 105, 20, 2⟩,
          ⟨"2024-01-19", "put", 100, 5, 3⟩, ⟨"2024-01-19", "put", 95, 5, 4⟩] "2024-01-19" = 0 →
        row.put_call_oi_ratio = 0) ∧
      (callOiSum [⟨"2024-01-19", "call", 100, 10, 1⟩, ⟨"2024-01-19", "call", 105, 20, 2⟩,
          ⟨"2024-01-19", "put", 100, 5, 3⟩, ⟨"2024-01-19", "put", 95, 5, 4⟩] "2024-01-19" ≠ 0 →
        row.put_call_oi_ratio = round2
          (putOiSum [⟨"2024-01-19", "call", 100, 10, 1⟩, ⟨"2024-01-19", "call", 105, 20, 2⟩,
              ⟨"2024-01-19", "put", 100, 5, 3⟩, ⟨"2024-01-19", "put", 95, 5, 4⟩] "2024-01-19" /
            callOiSum [⟨"2024-01-19", "call", 100, 10, 1⟩, ⟨"2024-01-19", "call", 105, 20, 2⟩,
              ⟨"2024-01-19", "put", 100, 5, 3⟩, ⟨"2024-01-19", "put", 95, 5, 4⟩] "2024-01-19")) :=
  ⟨by decide, put_call_ratio_correct _ "2024-01-19" (by decide) (by decide) (by decide)⟩

theorem mpStep_none (ed : List ARow) (s : ℚ) :
    mpStep ed none s = some (painAt ed s, s) := rfl

theorem mpStep_some (ed : List ARow) (v m s : ℚ) :
    mpStep ed (some (v, m)) s =
      if painAt ed s < v then some (painAt ed s, s) else some (v, m) := rfl

theorem painAt_eq_painSpec (ed : List ARow) (s : ℚ) :
    painAt ed s = painSpec ed s := by
  unfold painAt painSpec
  have hc : (fun (c : ARow) =>
      if c.strike_price < s then (s - c.strike_price) * c.open_interest * 100 else 0)
      = fun (c : ARow) => max 0 (s - c.strike_price) * c.open_interest * 100 := by
    funext c
    by_cases h : c.strike_price < s
    · rw [if_pos h, max_eq_right (le_of_lt (sub_pos.mpr h))]
    · rw [if_neg h, max_eq_left (sub_nonpos.mpr (not_lt.mp h)), zero_mul, zero_mul]
  have hp : (fun (p : ARow) =>
      if s < p.strike_price then (p.strike_price - s) * p.open_interest * 100 else 0)
      = fun (p : ARow) => max 0 (p.strike_price - s) * p.open_interest * 100 := by
    funext p
    by_cases h : s < p.strike_price
    · rw [if_pos h, max_eq_right (le_of_lt (sub_pos.mpr h))]
    · rw [if_neg h, max_eq_left (sub_nonpos.mpr (not_lt.mp h)), zero_mul, zero_mul]
  rw [hc, hp]

theorem mpFold_spec (ed : List ARow) (l : List ℚ) :
    List.Sorted (· ≤ ·) l → ∀ (v m : ℚ), (∀ t ∈ l, m ≤ t) →
    ∃ p : ℚ × ℚ, l.foldl (mpStep ed) (some (v, m)) = some p ∧
      p.1 ≤ v ∧ (∀ t ∈ l, p.1 ≤ painAt ed t) ∧
      ((p.2 = m ∧ p.1 = v) ∨ (p.2 ∈ l ∧ painAt ed p.2 = p.1 ∧ p.1 < v)) ∧
      (∀ t ∈ l, painAt ed t = p.1 → p.2 ≤ t) := by
  induction l with
  | nil =>
    intro _ v m _
    exact ⟨(v, m), rfl, le_refl v, by simp, Or.inl ⟨rfl, rfl⟩, by simp⟩
  | cons a l ih =>
    intro hs v m hm
    rw [List.sorted_cons] at hs
    rw [List.foldl_cons, mpStep_some]
    by_cases hlt : painAt ed a < v
    · rw [if_pos hlt]
      obtain ⟨p, heq, h1, h2, h3, h4⟩ := ih hs.2 (painAt ed a) a hs.1
      refine ⟨p, heq, le_of_lt (lt_of_le_of_lt h1 hlt), ?_, ?_, ?_⟩
      · intro t ht
        rcases List.mem_cons.mp ht with rfl | ht2
        · exact h1
        · exact h2 t ht2
      · rcases h3 with ⟨hpm, hpv⟩ | ⟨hpl, hpp, hpv⟩
        · exact Or.inr ⟨hpm ▸ List.mem_cons_self a l, by rw [hpm, hpv], hpv ▸ hlt⟩
        · exact Or.inr ⟨List.mem_cons_of_mem a hpl, hpp, lt_trans hpv hlt⟩
      · intro t ht hpt
        rcases List.mem_cons.mp ht with rfl | ht2
        · rcases h3 with ⟨hpm, _⟩ | ⟨_, _, hpv⟩
          · exact hpm.le
          · exact absurd (hpt ▸ hpv) (lt_irrefl _)
        · exact h4 t ht2 hpt
    · rw [if_neg hlt]
      have hva : v ≤ painAt ed a := not_lt.mp hlt
      obtain ⟨p, heq, h1, h2, h3, h4⟩ := ih hs.2 v m (fun t ht => hm t (List.mem_cons_of_mem a ht))
      refine ⟨p, heq, h1, ?_, ?_, ?_⟩
      · intro t ht
        rcases List.mem_cons.mp ht with rfl | ht2
        · exact le_trans h1 hva
        · exact h2 t ht2
      · rcases h3 with hl | ⟨hpl, hpp, hpv⟩
        · exact Or.inl hl
        · exact Or.inr ⟨List.mem_cons_of_mem a hpl, hpp, hpv⟩
      · intro t ht hpt
        rcases List.mem_cons.mp ht with rfl | ht2
        · rcases h3 with ⟨hpm, hpv⟩ | ⟨_, _, hpv⟩
          · exact hpm ▸ hm t (List.mem_cons_self t l)
          · exact absurd (lt_of_lt_of_le hpv (hpt ▸ hva)) (lt_irrefl _)
        · exact h4 t ht2 hpt

/-- C5: for every expiration with rows, `calculate_max_pain` returns a
candidate strike (from the ascending distinct strikes at that
expiration) minimising the claim's pain formula
`Σ_calls max(0, s − K)·OI·100 + Σ_puts max(0, K − s)·OI·100`, and among
tied minimisers it returns the lowest strike. -/
theorem calculate_max_pain_argmin (rows : List ARow) (e : String)
    (h : expRows rows e ≠ []) :
    ∃ s, calculate_max_pain rows e = some s ∧
      s ∈ strikesOf (expRows rows e) ∧
      (∀ t ∈ strikesOf (expRows rows e),
        painSpec (expRows rows e) s ≤ painSpec (expRows rows e) t) ∧
      (∀ t ∈ strikesOf (expRows rows e),
        painSpec (expRows rows e) t = painSpec (expRows rows e) s → s ≤ t) := by
  have hstr : strikesOf (expRows rows e) ≠ [] := by
    obtain ⟨r, hr⟩ := List.exists_mem_of_ne_nil _ h
    have hmem : r.strike_price ∈ strikesOf (expRows rows e) := by
      unfold strikesOf
      rw [(List.perm_insertionSort _ _).mem_iff, List.mem_dedup]
      exact List.mem_map_of_mem _ hr
    exact List.ne_nil_of_mem hmem
  have hsorted : List.Sorted (· ≤ ·) (strikesOf (expRows rows e)) :=
    List.sorted_insertionSort _ _
  obtain ⟨a, l, hal⟩ : ∃ a l, strikesOf (expRows rows e) = a :: l := by
    cases hsl : strikesOf (expRows rows e) with
    | nil => exact absurd hsl hstr
    | cons a l => exact ⟨a, l, rfl⟩
  rw [hal, List.sorted_cons] at hsorted
  obtain ⟨p, heq, h1, h2, h3, h4⟩ :=
    mpFold_spec (expRows rows e) l hsorted.2 (painAt (expRows rows e) a) a hsorted.1
  have hp2 : painAt (expRows rows e) p.2 = p.1 := by
    rcases h3 with ⟨hpm, hpv⟩ | ⟨_, hpp, _⟩
    · rw [hpm, hpv]
    · exact hpp
  refine ⟨p.2, ?_, ?_, ?_, ?_⟩
  · unfold calculate_max_pain
    rw [if_neg h, hal, List.foldl_cons, mpStep_none, heq]
    rfl
  · rw [hal]
    rcases h3 with ⟨hpm, _⟩ | ⟨hpl, _, _⟩
    · exact hpm ▸ List.mem_cons_self a l
    · exact List.mem_cons_of_mem a hpl
  · intro t ht
    rw [← painAt_eq_painSpec, ← painAt_eq_painSpec, hp2]
    rw [hal] at ht
    rcases List.mem_cons.mp ht with rfl | ht2
    · exact h1
    · exact h2 t ht2
  · intro t ht hpt
    rw [← painAt_eq_painSpec, ← painAt_eq_painSpec, hp2] at hpt
    rw [hal] at ht
    rcases List.mem_cons.mp ht with rfl | ht2
    · rcases h3 with ⟨hpm, _⟩ | ⟨_, _, hpv⟩
      · exact hpm.le
      · exact absurd (hpt ▸ hpv) (lt_irrefl _)
    · exact h4 t ht2 hpt

/-- Witness for `calculate_max_pain_argmin` on a concrete expiration
with one call (strike 100, OI 10) and one put (strike 110, OI 5). -/
theorem calculate_max_pain_argmin_witness :
    expRows [⟨"2024-01-19", "call", 100, 0, 10⟩, ⟨"2024-01-19", "put", 110, 0, 5⟩]
        "2024-01-19" ≠ [] ∧
    ∃ s, calculate_max_pain
        [⟨"2024-01-19", "call", 100, 0, 10⟩, ⟨"2024-01-19", "put", 110, 0, 5⟩]
        "2024-01-19" = some s ∧
      s ∈ strikesOf (expRows
        [⟨"2024-01-19", "call", 100, 0, 10⟩, ⟨"2024-01-19", "put", 110, 0, 5⟩] "2024-01-19") ∧
      (∀ t ∈ strikesOf (expRows
          [⟨"2024-01-19", "call", 100, 0, 10⟩, ⟨"2024-01-19", "put", 110, 0, 5⟩] "2024-01-19"),
        painSpec (expRows
            [⟨"2024-01-19", "call", 100, 0, 10⟩, ⟨"2024-01-19", "put", 110, 0, 5⟩] "2024-01-19") s
          ≤ painSpec (expRows
            [⟨"2024-01-19", "call", 100, 0, 10⟩, ⟨"2024-01-19", "put", 110, 0, 5⟩] "2024-01-19") t) ∧
      (∀ t ∈ strikesOf (expRows
          [⟨"2024-01-19", "call", 100, 0, 10⟩, ⟨"2024-01-19", "put", 110, 0, 5⟩] "2024-01-19"),
        painSpec (expRows
            [⟨"2024-01-19", "call", 100, 0, 10⟩, ⟨"2024-01-19", "put", 110, 0, 5⟩] "2024-01-19") t
          = painSpec (expRows
            [⟨"2024-01-19", "call", 100, 0, 10⟩, ⟨"2024-01-19", "put", 110, 0, 5⟩] "2024-01-19") s
          → s ≤ t) :=
  ⟨by decide, calculate_max_pain_argmin
    [⟨"2024-01-19", "call", 100, 0, 10⟩, ⟨"2024-01-19", "put", 110, 0, 5⟩]
    "2024-01-19" (by decide)⟩

theorem volVar_nonneg (rows : List ARow) (h2 : 2 ≤ (activeOf rows).length) :
    0 ≤ volVar rows := by
  unfold volVar
  apply div_nonneg
  · exact sum_map_nonneg _ _ (fun r _ => sq_nonneg _)
  · have : (2:ℚ) ≤ ((activeOf rows).length : ℚ) := by exact_mod_cast h2
    linarith

theorem sqrtCompareAux (b a : ℝ) (hb : 0 ≤ b) (ha : 0 ≤ a) (hsq : b ^ 2 ≤ a ^ 2) :
    b ≤ a := by
  calc b = Real.sqrt (b ^ 2) := (Real.sqrt_sq hb).symm
  _ ≤ Real.sqrt (a ^ 2) := Real.sqrt_le_sqrt hsq
  _ = a := Real.sqrt_sq ha

/-- The squared form used in `volFlag` coincides with the real-valued
threshold test `volume ≥ mean + 2·std` of the source, where
`std = √(sample variance)`. -/
theorem volFlag_iff_real (rows : List ARow) (r : ARow)
    (h2 : 2 ≤ (activeOf rows).length) :
    volFlag rows r = true ↔
      (volMean rows : ℝ) + 2 * Real.sqrt (volVar rows) ≤ (r.volume : ℝ) := by
  have hvar : 0 ≤ volVar rows := volVar_nonneg rows h2
  have hvarR : (0:ℝ) ≤ ((volVar rows : ℚ) : ℝ) := by exact_mod_cast hvar
  have hb : (0:ℝ) ≤ 2 * Real.sqrt (volVar rows) :=
    mul_nonneg (by norm_num) (Real.sqrt_nonneg _)
  have hbsq : (2 * Real.sqrt (volVar rows)) ^ 2 = 4 * ((volVar rows : ℚ) : ℝ) := by
    rw [mul_pow, Real.sq_sqrt hvarR]
    norm_num
  unfold volFlag
  rw [if_neg (by omega)]
  simp only [decide_eq_true_eq]
  constructor
  · rintro ⟨h0, hsq⟩
    have h0R : (0:ℝ) ≤ (r.volume : ℝ) - (volMean rows : ℝ) := by exact_mod_cast h0
    have hsqR : (4:ℝ) * ((volVar rows : ℚ) : ℝ) ≤ ((r.volume : ℝ) - (volMean rows : ℝ)) ^ 2 := by
      exact_mod_cast hsq
    have := sqrtCompareAux _ _ hb h0R (by rw [hbsq]; exact hsqR)
    linarith
  · intro h
    have hle : 2 * Real.sqrt (volVar rows) ≤ (r.volume : ℝ) - (volMean rows : ℝ) := by
      linarith
    constructor
    · exact_mod_cast hb.trans hle
    · have : (2 * Real.sqrt (volVar rows)) ^ 2 ≤ ((r.volume : ℝ) - (volMean rows : ℝ)) ^ 2 :=
        pow_le_pow_left₀ hb hle 2
      rw [hbsq] at this
      exact_mod_cast this

theorem detect_subset_flagged (rows : List ARow) (r : ARow)
    (h : r ∈ detect_unusual_activity rows) : r ∈ flaggedOf rows := by
  unfold detect_unusual_activity at h
  by_cases ha : activeOf rows = []
  · rw [if_pos ha] at h
    exact absurd h (List.not_mem_nil r)
  · rw [if_neg ha] at h
    exact ((List.perm_insertionSort _ _).mem_iff).mp (List.mem_of_mem_take h)

theorem flagged_subset_active (rows : List ARow) (r : ARow)
    (h : r ∈ flaggedOf rows) : r ∈ activeOf rows :=
  (List.mem_filter.mp h).1

/-- C6: the candidate set is exactly the positive-volume contracts and
a zero-volume contract never appears in the output; a `volume = 1000,
OI = 10` contract is always flagged (its volume/OI ratio is 100 ≥ 1/2);
when at least two candidates are active (so that the sample standard
deviation the claim refers to is defined — with a single candidate
pandas' `std()` is `NaN` and only the ratio branch can flag), a
candidate is flagged iff `volume ≥ mean + 2·std` or
`volumeOiRatio ≥ 1/2`; and the output is exactly the flagged set sorted
by volume descending and truncated to the top 50: its length is
`min 50 |flagged|`, it is descending-sorted, and together with the
dropped rows — each of volume at most that of every emitted row — it is
a permutation of the flagged set. -/
theorem detect_unusual_correct (rows : List ARow) :
    (∀ r, r ∈ activeOf rows ↔ (r ∈ rows ∧ 0 < r.volume)) ∧
    (∀ r ∈ rows, r.volume = 0 →
      r ∉ activeOf rows ∧ r ∉ detect_unusual_activity rows) ∧
    (2 ≤ (activeOf rows).length →
      ∀ r ∈ activeOf rows,
        (r ∈ flaggedOf rows ↔
          ((volMean rows : ℝ) + 2 * Real.sqrt (volVar rows) ≤ (r.volume : ℝ) ∨
            1/2 ≤ volOiRatio r))) ∧
    (∀ r ∈ rows, r.volume = 1000 → r.open_interest = 10 → r ∈ flaggedOf rows) ∧
    ((detect_unusual_activity rows).length = min 50 (flaggedOf rows).length ∧
      List.Sorted volDesc (detect_unusual_activity rows) ∧
      (∀ r ∈ detect_unusual_activity rows, r ∈ flaggedOf rows) ∧
      ∃ dropped, (detect_unusual_activity rows ++ dropped).Perm (flaggedOf rows) ∧
        ∀ r ∈ dropped, ∀ s ∈ detect_unusual_activity rows, r.volume ≤ s.volume) := by
  have hmem : ∀ r, r ∈ activeOf rows ↔ (r ∈ rows ∧ 0 < r.volume) := by
    intro r
    unfold activeOf
    rw [List.mem_filter]
    simp only [decide_eq_true_eq]
  refine ⟨hmem, ?_, ?_, ?_, ?_, ?_, ?_, ?_⟩
  · intro r hr h0
    constructor
    · intro hmem2
      have := ((hmem r).mp hmem2).2
      rw [h0] at this
      exact lt_irrefl 0 this
    · intro hdet
      have := ((hmem r).mp (flagged_subset_active rows r (detect_subset_flagged rows r hdet))).2
      rw [h0] at this
      exact lt_irrefl 0 this
  · intro h2 r hr
    unfold flaggedOf
    rw [List.mem_filter]
    simp only [hr, true_and, Bool.or_eq_true, decide_eq_true_eq]
    rw [volFlag_iff_real rows r h2]
  · intro r hr hv hoi
    unfold flaggedOf
    rw [List.mem_filter]
    refine ⟨(hmem r).mpr ⟨hr, by rw [hv]; norm_num⟩, ?_⟩
    have hratio : volOiRatio r = 100 := by
      unfold volOiRatio
      rw [hv, hoi, if_pos (by norm_num)]
      norm_num
    rw [Bool.or_eq_true]
    right
    simp only [decide_eq_true_eq, hratio]
    norm_num
  · by_cases ha : activeOf rows = []
    · have hfl : flaggedOf rows = [] := by
        unfold flaggedOf
        rw [ha]
        rfl
      unfold detect_unusual_activity
      rw [if_pos ha, hfl]
      simp
    · unfold detect_unusual_activity
      rw [if_neg ha, List.length_take,
        (List.perm_insertionSort volDesc (flaggedOf rows)).length_eq]
  · unfold detect_unusual_activity
    by_cases ha : activeOf rows = []
    · rw [if_pos ha]
      exact List.sorted_nil
    · rw [if_neg ha]
      exact (List.sorted_insertionSort volDesc (flaggedOf rows)).sublist
        (List.take_sublist 50 _)
  · exact fun r hr => detect_subset_flagged rows r hr
  · by_cases ha : activeOf rows = []
    · have hfl : flaggedOf rows = [] := by
        unfold flaggedOf
        rw [ha]
        rfl
      unfold detect_unusual_activity
      rw [if_pos ha, hfl]
      exact ⟨[], by simp, by simp⟩
    · unfold detect_unusual_activity
      rw [if_neg ha]
      refine ⟨(List.insertionSort volDesc (flaggedOf rows)).drop 50, ?_, ?_⟩
      · rw [List.take_append_drop]
        exact List.perm_insertionSort volDesc (flaggedOf rows)
      · intro r hr s hs
        have hp : List.Pairwise volDesc (List.insertionSort volDesc (flaggedOf rows)) :=
          List.sorted_insertionSort volDesc (flaggedOf rows)
        rw [← List.take_append_drop 50 (List.insertionSort volDesc (flaggedOf rows))] at hp
        rw [List.pairwise_append] at hp
        exact hp.2.2 s hs r hr

/-- Witness for `detect_unusual_correct` on a table with two active
contracts and one zero-volume contract, discharging the inner
two-candidate hypothesis of the standard-deviation clause. -/
theorem detect_unusual_correct_witness :
    2 ≤ (activeOf [⟨"2024-01-19", "call", 100, 4, 20⟩, ⟨"2024-01-19", "put", 95, 6, 10⟩,
        ⟨"2024-01-19", "call", 105, 0, 7⟩]).length ∧
    (∀ r ∈ activeOf [⟨"2024-01-19", "call", 100, 4, 20⟩, ⟨"2024-01-19", "put", 95, 6, 10⟩,
        ⟨"2024-01-19", "call", 105, 0, 7⟩],
      (r ∈ flaggedOf [⟨"2024-01-19", "call", 100, 4, 20⟩, ⟨"2024-01-19", "put", 95, 6, 10⟩,
          ⟨"2024-01-19", "call", 105, 0, 7⟩] ↔
        ((volMean [⟨"2024-01-19", "call", 100, 4, 20⟩, ⟨"2024-01-19", "put", 95, 6, 10⟩,
            ⟨"2024-01-19", "call", 105, 0, 7⟩] : ℝ) +
          2 * Real.sqrt (volVar [⟨"2024-01-19", "call", 100, 4, 20⟩,
            ⟨"2024-01-19", "put", 95, 6, 10⟩, ⟨"2024-01-19", "call", 105, 0, 7⟩])
            ≤ (r.volume : ℝ) ∨
          1/2 ≤ volOiRatio r))) ∧
    (detect_unusual_activity [⟨"2024-01-19", "call", 100, 4, 20⟩,
        ⟨"2024-01-19", "put", 95, 6, 10⟩, ⟨"2024-01-19", "call", 105, 0, 7⟩]).length
      = min 50 (flaggedOf [⟨"2024-01-19", "call", 100, 4, 20⟩,
        ⟨"2024-01-19", "put", 95, 6, 10⟩, ⟨"2024-01-19", "call", 105, 0, 7⟩]).length ∧
    ∃ dropped, (detect_unusual_activity [⟨"2024-01-19", "call", 100, 4, 20⟩,
        ⟨"2024-01-19", "put", 95, 6, 10⟩, ⟨"2024-01-19", "call", 105, 0, 7⟩] ++ dropped).Perm
        (flaggedOf [⟨"2024-01-19", "call", 100, 4, 20⟩, ⟨"2024-01-19", "put", 95, 6, 10⟩,
          ⟨"2024-01-19", "call", 105, 0, 7⟩]) ∧
      ∀ r ∈ dropped, ∀ s ∈ detect_unusual_activity [⟨"2024-01-19", "call", 100, 4, 20⟩,
        ⟨"2024-01-19", "put", 95, 6, 10⟩, ⟨"2024-01-19", "call", 105, 0, 7⟩],
        r.volume ≤ s.volume :=
  ⟨by decide,
    (detect_unusual_correct [⟨"2024-01-19", "call", 100, 4, 20⟩,
      ⟨"2024-01-19", "put", 95, 6, 10⟩, ⟨"2024-01-19", "call", 105, 0, 7⟩]).2.2.1 (by decide),
    (detect_unusual_correct [⟨"2024-01-19", "call", 100, 4, 20⟩,
      ⟨"2024-01-19", "put", 95, 6, 10⟩, ⟨"2024-01-19", "call", 105, 0, 7⟩]).2.2.2.2.1,
    (detect_unusual_correct [⟨"2024-01-19", "call", 100, 4, 20⟩,
      ⟨"2024-01-19", "put", 95, 6, 10⟩, ⟨"2024-01-19", "call", 105, 0, 7⟩]).2.2.2.2.2.2.2⟩

theorem dlStep_skip (completed : List String) (fetch : String → Option (List DlRow))
    (st : DLoop) (e : String) (h : e ∈ completed) :
    dlStep completed fetch st e = { st with skipped := st.skipped + 1 } := by
  unfold dlStep
  rw [if_pos h]

theorem dlStep_commit (completed : List String) (fetch : String → Option (List DlRow))
    (st : DLoop) (e : String) (recs : List DlRow) (h : e ∉ completed)
    (hf : fetch e = some recs) (hne : recs ≠ []) :
    dlStep completed fetch st e =
      { file := some ((if st.is_first_write then [] else st.file.getD []) ++ commitSort recs),
        is_first_write := false,
        fetched := st.fetched + 1,
        skipped := st.skipped,
        total := st.total + recs.length } := by
  unfold dlStep
  rw [if_neg h, hf]
  exact if_pos (List.length_pos.mpr hne)

/-- C1: resuming after expirations `A` and `B` were committed (and the
run interrupted before `C`) produces a table whose distinct expirations
are exactly `{A, B, C}`, in which the rows for `A` and `B` are exactly
the rows the first pass wrote — nothing for them is re-fetched or
duplicated. -/
theorem resume_idempotent (A B C : String) (tbl1 recsC : List DlRow)
    (fetch : String → Option (List DlRow))
    (hAC : A ≠ C) (hBC : B ≠ C)
    (hA : A ∈ tbl1.map (·.expiration_date)) (hB : B ∈ tbl1.map (·.expiration_date))
    (hsub : ∀ r ∈ tbl1, r.expiration_date = A ∨ r.expiration_date = B)
    (hfC : fetch C = some recsC) (hne : recsC ≠ [])
    (hCexp : ∀ r ∈ recsC, r.expiration_date = C) :
    ∃ final, (download_full_chain [A, B, C] fetch true (some tbl1)).file = some final ∧
      (∀ e, e ∈ final.map (·.expiration_date) ↔ (e = A ∨ e = B ∨ e = C)) ∧
      final.filter (fun r => decide (r.expiration_date = A ∨ r.expiration_date = B))
        = tbl1 := by
  have hAc : A ∈ get_completed_expirations (some tbl1) := List.mem_dedup.mpr hA
  have hBc : B ∈ get_completed_expirations (some tbl1) := List.mem_dedup.mpr hB
  have hCc : C ∉ get_completed_expirations (some tbl1) := by
    intro hmem
    obtain ⟨r, hr, hre⟩ := List.mem_map.mp (List.mem_dedup.mp hmem)
    rcases hsub r hr with h1 | h1
    · exact hAC (h1 ▸ hre)
    · exact hBC (h1 ▸ hre)
  have hie : (get_completed_expirations (some tbl1)).isEmpty = false := by
    cases hc : get_completed_expirations (some tbl1) with
    | nil => exact absurd (hc ▸ hAc) (List.not_mem_nil A)
    | cons x xs => rfl
  have hrun : (download_full_chain [A, B, C] fetch true (some tbl1)).file
      = some (tbl1 ++ commitSort recsC) := by
    unfold download_full_chain
    rw [if_neg (by simp), if_pos (by simp)]
    rw [List.foldl_cons, dlStep_skip _ _ _ _ hAc]
    rw [List.foldl_cons, dlStep_skip _ _ _ _ hBc]
    rw [List.foldl_cons, dlStep_commit _ _ _ _ _ hCc hfC hne, List.foldl_nil]
    simp [dlFinish, hie]
  refine ⟨tbl1 ++ commitSort recsC, hrun, ?_, ?_⟩
  · intro e
    rw [List.map_append, List.mem_append]
    constructor
    · rintro (h | h)
      · obtain ⟨r, hr, hre⟩ := List.mem_map.mp h
        rcases hsub r hr with h1 | h1
        · exact Or.inl (hre.symm.trans h1)
        · exact Or.inr (Or.inl (hre.symm.trans h1))
      · obtain ⟨r, hr, hre⟩ := List.mem_map.mp h
        have hrC : r.expiration_date = C :=
          hCexp r (((List.perm_insertionSort dlKeyLe recsC).mem_iff).mp hr)
        exact Or.inr (Or.inr (hre.symm.trans hrC))
    · rintro (rfl | rfl | rfl)
      · exact Or.inl hA
      · exact Or.inl hB
      · obtain ⟨r, hr⟩ := List.exists_mem_of_ne_nil recsC hne
        refine Or.inr (List.mem_map.mpr ⟨r, ?_, hCexp r hr⟩)
        exact ((List.perm_insertionSort dlKeyLe recsC).mem_iff).mpr hr
  · rw [List.filter_append]
    have h1 : tbl1.filter
        (fun r => decide (r.expiration_date = A ∨ r.expiration_date = B)) = tbl1 :=
      List.filter_eq_self.mpr (fun r hr => by simpa using hsub r hr)
    have h2 : (commitSort recsC).filter
        (fun r => decide (r.expiration_date = A ∨ r.expiration_date = B)) = [] := by
      rw [List.filter_eq_nil_iff]
      intro r hr
      have hrC : r.expiration_date = C :=
        hCexp r (((List.perm_insertionSort dlKeyLe recsC).mem_iff).mp hr)
      simp only [decide_eq_true_eq, hrC]
      rintro (rfl | rfl)
      · exact hAC rfl
      · exact hBC rfl
    rw [h1, h2, List.append_nil]

/-- Witness for `resume_idempotent`: a resume over `[A, B, C]` with the
first pass having committed one row for `A` and one for `B`. -/
theorem resume_idempotent_witness :
    ("2024-01-05" : String) ≠ "2024-01-19" ∧ ("2024-01-12" : String) ≠ "2024-01-19" ∧
    ∃ final, (download_full_chain ["2024-01-05", "2024-01-12", "2024-01-19"]
        (fun x => if x = "2024-01-19" then some [⟨"2024-01-19", "put", 50⟩] else none) true
        (some [⟨"2024-01-05", "call", 100⟩, ⟨"2024-01-12", "call", 110⟩])).file = some final ∧
      (∀ e, e ∈ final.map (·.expiration_date) ↔
        (e = "2024-01-05" ∨ e = "2024-01-12" ∨ e = "2024-01-19")) ∧
      final.filter (fun r => decide (r.expiration_date = "2024-01-05" ∨
        r.expiration_date = "2024-01-12"))
        = [⟨"2024-01-05", "call", 100⟩, ⟨"2024-01-12", "call", 110⟩] :=
  ⟨by decide, by decide, resume_idempotent "2024-01-05" "2024-01-12" "2024-01-19"
    [⟨"2024-01-05", "call", 100⟩, ⟨"2024-01-12", "call", 110⟩] [⟨"2024-01-19", "put", 50⟩]
    (fun x => if x = "2024-01-19" then some [⟨"2024-01-19", "put", 50⟩] else none)
    (by decide) (by decide) (by decide) (by decide) (by decide) rfl (by decide) (by decide)⟩

/-- C8 counterexample: a middle expiration whose fetch fails is
committed by a later resume run after its successors, so the final file
is not globally sorted by `(expirationDate, optionType, strikePrice)`.
First pass (fresh): `2024-01-05` and `2024-01-19` succeed, `2024-01-12`
fails.  Second pass (resume): `2024-01-12` succeeds and is appended at
the end, after `2024-01-19`. -/
theorem output_not_globally_sorted_cex :
    (download_full_chain ["2024-01-05", "2024-01-12", "2024-01-19"]
        (fun e => if e = "2024-01-12" then some [⟨"2024-01-12", "call", 100⟩] else none) true
        (download_full_chain ["2024-01-05", "2024-01-12", "2024-01-19"]
          (fun e => if e = "2024-01-05" then some [⟨"2024-01-05", "call", 100⟩]
            else if e = "2024-01-19" then some [⟨"2024-01-19", "call", 100⟩] else none)
          false none).file).file
      = some [⟨"2024-01-05", "call", 100⟩, ⟨"2024-01-19", "call", 100⟩,
          ⟨"2024-01-12", "call", 100⟩] ∧
    ¬ List.Sorted fullKeyLe [⟨"2024-01-05", "call", 100⟩, ⟨"2024-01-19", "call", 100⟩,
        ⟨"2024-01-12", "call", 100⟩] := by
  constructor
  · rfl
  · intro hs
    rw [List.sorted_cons] at hs
    rw [List.sorted_cons] at hs
    have h2 := hs.2.1 ⟨"2024-01-12", "call", 100⟩ (by simp)
    unfold fullKeyLe at h2
    rcases h2 with hlt | ⟨heq, _⟩
    · rw [String.lt_iff_toList_lt] at hlt
      revert hlt
      decide
    · exact absurd heq (by decide)

/-- C8 (amended): each committed batch holds the records of a single
expiration sorted by `(optionType, strikePrice)` ascending, which within
the batch coincides with the full-key order
`(expirationDate, optionType, strikePrice)`; the file as a whole is
ordered by commit order of expirations, which need not follow
`expirationDate` (see `output_not_globally_sorted_cex`). -/
theorem commit_batch_sorted (recs : List DlRow) (e : String)
    (h : ∀ r ∈ recs, r.expiration_date = e) :
    List.Sorted fullKeyLe (commitSort recs) := by
  have hs : List.Sorted dlKeyLe (commitSort recs) :=
    List.sorted_insertionSort dlKeyLe recs
  refine List.Pairwise.imp_of_mem ?_ hs
  intro a b ha hb hr
  have hae : a.expiration_date = e :=
    h a (((List.perm_insertionSort dlKeyLe recs).mem_iff).mp ha)
  have hbe : b.expiration_date = e :=
    h b (((List.perm_insertionSort dlKeyLe recs).mem_iff).mp hb)
  exact Or.inr ⟨hae.trans hbe.symm, hr⟩

/-- Witness for `commit_batch_sorted` on a concrete unsorted batch. -/
theorem commit_batch_sorted_witness :
    (∀ r ∈ ([⟨"2024-01-19", "put", 105⟩, ⟨"2024-01-19", "call", 110⟩,
        ⟨"2024-01-19", "call", 100⟩] : List DlRow), r.expiration_date = "2024-01-19") ∧
    List.Sorted fullKeyLe (commitSort [⟨"2024-01-19", "put", 105⟩,
      ⟨"2024-01-19", "call", 110⟩, ⟨"2024-01-19", "call", 100⟩]) :=
  ⟨by decide, commit_batch_sorted
    [⟨"2024-01-19", "put", 105⟩, ⟨"2024-01-19", "call", 110⟩, ⟨"2024-01-19", "call", 100⟩]
    "2024-01-19" (by decide)⟩
